import Mathlib

/-
Verification of the wikipedia-graph repository core
  (crates/wikipedia-graph/src/page.rs, graph/mod.rs, client/mod.rs, client/client.rs).

Rust strings are embedded as lists of characters (`Str`), serde_json values as
the inductive `Json` (object fields in iteration order; serde maps iterate in a
fixed order and `iter().next()` returns the first entry, modelled as the head of
the field list).  Fallible Rust functions returning `Result`/`Option` become
`Except`/`Option` valued Lean functions.
-/

set_option maxRecDepth 8192

abbrev Str := List Char

/-- Convert a Lean string literal to the character-list embedding of Rust strings. -/
def chs (s : String) : Str := s.toList

/-- Shallow embedding of serde_json::Value. -/
inductive Json where
  | null : Json
  | jbool : Bool → Json
  | num : Int → Json
  | str : Str → Json
  | arr : List Json → Json
  | obj : List (Str × Json) → Json

namespace Json

/-- serde_json Value::get with a string key: lookup in an object, None otherwise. -/
def get (j : Json) (key : Str) : Option Json :=
  match j with
  | .obj fields => (fields.find? (fun f => decide (f.1 = key))).map Prod.snd
  | _ => none

/-- Value::as_object, returning the field list. -/
def asObject : Json → Option (List (Str × Json))
  | .obj fields => some fields
  | _ => none

/-- Value::as_array. -/
def asArray : Json → Option (List Json)
  | .arr xs => some xs
  | _ => none

/-- Value::as_str. -/
def asStr : Json → Option Str
  | .str s => some s
  | _ => none

@[simp] theorem asObject_eq_some {j : Json} {fs : List (Str × Json)} :
    j.asObject = some fs ↔ j = Json.obj fs := by
  cases j <;> simp [asObject]

@[simp] theorem asArray_eq_some {j : Json} {xs : List Json} :
    j.asArray = some xs ↔ j = Json.arr xs := by
  cases j <;> simp [asArray]

@[simp] theorem asStr_eq_some {j : Json} {s : Str} :
    j.asStr = some s ↔ j = Json.str s := by
  cases j <;> simp [asStr]

end Json

/-- Replace every occurrence of character a by b (Rust str::replace with
one-character patterns, as used by from_title, title and capitalize). -/
def replaceChar (a b : Char) (l : Str) : Str :=
  l.map (fun c => if c = a then b else c)

/-- The error raised when the pathinfo of a page cannot be parsed from its body
(page.rs PathinfoParseError). -/
inductive PathinfoParseError where
  | parseError : PathinfoParseError
deriving DecidableEq

/-- WikipediaUrlType from page.rs. -/
inductive WikipediaUrlType where
  | basic : WikipediaUrlType
  | rawApi : WikipediaUrlType
  | linksApi : WikipediaUrlType
deriving DecidableEq

/-- A serde_json deserialisation error: either a syntax error produced by
from_str or a custom message (serde::de::Error::custom). -/
inductive SerdeError where
  | syntaxError : SerdeError
  | custom : Str → SerdeError
deriving DecidableEq

/-- WikipediaBody from page.rs: the two supported body formats. -/
inductive WikipediaBody where
  | wikiText : Json → WikipediaBody
  | links : Json → WikipediaBody

/-- WikipediaPage from page.rs: a pathinfo plus an optional body. -/
structure WikipediaPage where
  pathinfo : Str
  body : Option WikipediaBody

namespace WikipediaPage

/-- WikipediaPage::from_title: spaces are replaced with underscores, body empty. -/
def from_title (title : Str) : WikipediaPage :=
  { pathinfo := replaceChar ' ' '_' title, body := none }

end WikipediaPage

namespace WikipediaBody

/-- WikipediaBody::from_url_type.  The serde_json::from_str parser is passed in
abstractly as fromStr: the Basic branch never invokes it and always fails with
the custom error, the two API branches wrap a successful parse in the matching
body constructor. -/
def from_url_type (fromStr : Str → Except SerdeError Json) (url_type : WikipediaUrlType)
    (body : Str) : Except SerdeError WikipediaBody :=
  match url_type with
  | .linksApi => (fromStr body).map (fun response => WikipediaBody.links response)
  | .rawApi => (fromStr body).map (fun response => WikipediaBody.wikiText response)
  | .basic => .error (.custom (chs ("Can\x27t deserialize links from the Normal Request Type")))

/-- The query.pages.(first entry).title lookup chain of get_pathinfo_from_links. -/
def linksTitleChain (data : Json) : Option Str :=
  (((data.get (chs ("query"))).bind
      (fun query => ((query.get (chs ("pages"))).bind Json.asObject).bind List.head?)).map
      Prod.snd).bind
    (fun value => (value.get (chs ("title"))).bind Json.asStr)

/-- WikipediaBody::get_pathinfo_from_links: the title of the first entry under
query.pages. -/
def get_pathinfo_from_links (data : Json) : Except PathinfoParseError Str :=
  match linksTitleChain data with
  | some title => .ok title
  | none => .error .parseError

/-- The parse.title lookup chain of get_pathinfo_from_wikitext. -/
def wikitextTitleChain (data : Json) : Option Str :=
  (data.get (chs ("parse"))).bind
    (fun value => (value.get (chs ("title"))).bind Json.asStr)

/-- WikipediaBody::get_pathinfo_from_wikitext: parse.title. -/
def get_pathinfo_from_wikitext (data : Json) : Except PathinfoParseError Str :=
  match wikitextTitleChain data with
  | some title => .ok title
  | none => .error .parseError

/-- WikipediaBody::get_pathinfo: fails outright on the WikiText variant and
delegates to get_pathinfo_from_links on the Links variant. -/
def get_pathinfo : WikipediaBody → Except PathinfoParseError Str
  | .wikiText _ => .error .parseError
  | .links l => get_pathinfo_from_links l

/-- WikipediaBody::get_linked_pages_from_links: iterate
query.pages.(first entry).links, turning each entry title into a page.  No
deduplication and no filtering happens on this path. -/
def get_linked_pages_from_links (value : Json) : Option (List WikipediaPage) :=
  ((((value.get (chs ("query"))).bind
        (fun query => ((query.get (chs ("pages"))).bind Json.asObject).bind List.head?)).map
        Prod.snd).bind
      (fun data => (data.get (chs ("links"))).bind Json.asArray)).map
    (fun links =>
      links.filterMap (fun link =>
        ((link.get (chs ("title"))).bind Json.asStr).map WikipediaPage.from_title))

end WikipediaBody

/-- The character class [a-zA-Z0-9 ()] of PAGE_TEXT_REGEX. -/
def linkChar (c : Char) : Bool :=
  (('a' ≤ c && c ≤ 'z') || ('A' ≤ c && c ≤ 'Z') || ('0' ≤ c && c ≤ '9')
    || c = ' ' || c = '(' || c = ')')

/-- Match PAGE_TEXT_REGEX at the start of the input.  The pattern is
two opening brackets, a nonempty run of linkChar (capture group 1), an optional
pipe followed by a nonempty run of linkChar, and two closing brackets.  Since
the character class contains neither a bracket nor a pipe, greedy matching is
maximal-run matching and no backtracking can succeed where this fails.  Returns
the whole match, the capture group and the remaining input. -/
def matchLink : Str → Option (Str × Str × Str)
  | '[' :: '[' :: rest =>
    let g := rest.takeWhile linkChar
    let r := rest.dropWhile linkChar
    if g.isEmpty then none
    else
      match r with
      | ']' :: ']' :: rest2 =>
        some ('[' :: '[' :: (g ++ [']', ']']), g, rest2)
      | '|' :: r2 =>
        let d := r2.takeWhile linkChar
        let r3 := r2.dropWhile linkChar
        if d.isEmpty then none
        else
          match r3 with
          | ']' :: ']' :: rest2 =>
            some ('[' :: '[' :: (g ++ '|' :: (d ++ [']', ']'])), g, rest2)
          | _ => none
      | _ => none
  | _ => none

/-- Leftmost, non-overlapping scan of regex captures_iter: try a match at every
position, resuming after the end of each match.  The fuel argument bounds the
number of scanning steps; every step consumes at least one input character, so
an initial fuel of the input length is exact. -/
def scanLinksGo : Nat → Str → List (Str × Str)
  | 0, _ => []
  | _ + 1, [] => []
  | fuel + 1, c :: cs =>
    match matchLink (c :: cs) with
    | some (full, g, rest) => (full, g) :: scanLinksGo fuel rest
    | none => scanLinksGo fuel cs

/-- All capture pairs (whole match, capture group 1) of PAGE_TEXT_REGEX over the
input, leftmost first, non-overlapping. -/
def scanLinks (s : Str) : List (Str × Str) := scanLinksGo s.length s

/-- Rust str::contains with a string pattern: substring containment. -/
def strContains (haystack needle : Str) : Bool :=
  decide (needle <:+: haystack)

/-- itertools unique_by with first occurrence kept: skip an element whose key was
already seen. -/
def uniqueByAux {α β : Type} [DecidableEq β] (key : α → β) (seen : List β) :
    List α → List α
  | [] => []
  | x :: xs =>
    if key x ∈ seen then uniqueByAux key seen xs
    else x :: uniqueByAux key (key x :: seen) xs

/-- itertools unique_by starting from no seen keys. -/
def uniqueBy {α β : Type} [DecidableEq β] (key : α → β) (l : List α) : List α :=
  uniqueByAux key [] l

namespace WikipediaBody

/-- WikipediaBody::FILTERED_PAGES. -/
def FILTERED_PAGES : List Str := [chs ("Wayback Machine")]

/-- The capture pipeline of get_linked_pages_from_wikitext: scan the wikitext
for bracket links, deduplicate by capture group (first occurrence kept), then
drop captures whose whole match contains a filtered page title. -/
def wikitextCaptures (page_text : Str) : List (Str × Str) :=
  (uniqueBy Prod.snd (scanLinks page_text)).filter
    (fun capture_data => FILTERED_PAGES.all (fun page => !(strContains capture_data.1 page)))

/-- The parse.wikitext.(first entry) string of a wikitext payload. -/
def wikitextPageText (value : Json) : Option Str :=
  ((((value.get (chs ("parse"))).bind
      (fun parse => parse.get (chs ("wikitext")))).bind Json.asObject).bind
    List.head?).bind (fun kv => kv.2.asStr)

/-- WikipediaBody::get_linked_pages_from_wikitext: regex-scan the wikitext
string, deduplicate by capture, filter against FILTERED_PAGES and create a page
from each surviving capture. -/
def get_linked_pages_from_wikitext (value : Json) : Option (List WikipediaPage) :=
  (wikitextPageText value).map
    (fun page_text =>
      (wikitextCaptures page_text).map
        (fun capture_data => WikipediaPage.from_title capture_data.2))

/-- WikipediaBody::get_linked_pages: dispatch on the body variant. -/
def get_linked_pages : WikipediaBody → Option (List WikipediaPage)
  | .wikiText t => get_linked_pages_from_wikitext t
  | .links t => get_linked_pages_from_links t

end WikipediaBody

namespace WikipediaPage

/-- WikipediaPage::try_get_linked_pages: the linked pages of the stored body,
None if no body is loaded or the body JSON is invalid. -/
def try_get_linked_pages (p : WikipediaPage) : Option (List WikipediaPage) :=
  p.body.bind WikipediaBody.get_linked_pages

end WikipediaPage

namespace WikipediaBody

theorem get_pathinfo_from_links_ok {data : Json} {t : Str} :
    get_pathinfo_from_links data = .ok t ↔ linksTitleChain data = some t := by
  unfold get_pathinfo_from_links
  cases h : linksTitleChain data <;> simp [h]

theorem get_pathinfo_from_wikitext_ok {data : Json} {t : Str} :
    get_pathinfo_from_wikitext data = .ok t ↔ wikitextTitleChain data = some t := by
  unfold get_pathinfo_from_wikitext
  cases h : wikitextTitleChain data <;> simp [h]

end WikipediaBody

/- ### Claim C6 material -/

/-- Claim C6: parsing a response body for the BasicPage request kind is a hard
failure.  For every parser behaviour and every input text, from_url_type with
the Basic url type fails with the custom deserialisation error and never
produces a body. -/
theorem from_url_type_basic_always_fails
    (fromStr : Str → Except SerdeError Json) (body : Str) :
    WikipediaBody.from_url_type fromStr .basic body =
      .error (.custom (chs ("Can\x27t deserialize links from the Normal Request Type"))) := rfl

/- ### Claim C3 material -/

/-- A WikiText payload that does carry parse.title. -/
def wikitextTitledJson : Json :=
  Json.obj [(chs ("parse"),
    Json.obj [(chs ("title"), Json.str (chs ("Waffle"))),
              (chs ("wikitext"), Json.obj [(chs ("*"), Json.str (chs ("text"))) ])])]

/-- Claim C3 counterexample: on a WikiText body whose payload has parse.title
present (the helper get_pathinfo_from_wikitext extracts it), get_pathinfo still
fails with PathinfoParseError, refuting that canonical-identity extraction
succeeds on both body variants. -/
theorem get_pathinfo_wikitext_fails_cex :
    WikipediaBody.get_pathinfo_from_wikitext wikitextTitledJson = .ok (chs ("Waffle")) ∧
    WikipediaBody.get_pathinfo (.wikiText wikitextTitledJson) = .error .parseError := by
  constructor <;> rfl

/-- Claim C3 amended: get_pathinfo always fails with PathinfoParseError on a
WikiText body, regardless of payload; on a Links body it succeeds with t
exactly when the first entry under query.pages carries the string field title
with value t; the standalone helper get_pathinfo_from_wikitext succeeds with t
exactly when parse.title is the string t. -/
theorem get_pathinfo_characterization :
    (∀ j : Json, WikipediaBody.get_pathinfo (.wikiText j) = .error .parseError) ∧
    (∀ (j : Json) (t : Str),
      WikipediaBody.get_pathinfo (.links j) = .ok t ↔
        ∃ (q : Json) (k : Str) (v : Json) (fs : List (Str × Json)),
          j.get (chs ("query")) = some q ∧
          q.get (chs ("pages")) = some (Json.obj ((k, v) :: fs)) ∧
          v.get (chs ("title")) = some (Json.str t)) ∧
    (∀ (j : Json) (t : Str),
      WikipediaBody.get_pathinfo_from_wikitext j = .ok t ↔
        ∃ p : Json, j.get (chs ("parse")) = some p ∧
          p.get (chs ("title")) = some (Json.str t)) := by
  refine ⟨fun _ => rfl, fun j t => ?_, fun j t => ?_⟩
  · rw [show WikipediaBody.get_pathinfo (.links j) = WikipediaBody.get_pathinfo_from_links j
        from rfl, WikipediaBody.get_pathinfo_from_links_ok]
    unfold WikipediaBody.linksTitleChain
    simp only [Option.bind_eq_some, Option.map_eq_some', Json.asObject_eq_some,
      Json.asStr_eq_some, List.head?_eq_some_iff]
    constructor
    · rintro ⟨v, ⟨kv, ⟨q, hq, fields, ⟨pj, hp, rfl⟩, ys, rfl⟩, rfl⟩, tv, ht, rfl⟩
      exact ⟨q, kv.1, kv.2, ys, hq, hp, ht⟩
    · rintro ⟨q, k, v, fs, hq, hp, ht⟩
      exact ⟨v, ⟨(k, v), ⟨q, hq, (k, v) :: fs, ⟨_, hp, rfl⟩, fs, rfl⟩, rfl⟩, Json.str t, ht, rfl⟩
  · rw [WikipediaBody.get_pathinfo_from_wikitext_ok]
    unfold WikipediaBody.wikitextTitleChain
    simp only [Option.bind_eq_some, Json.asStr_eq_some]
    constructor
    · rintro ⟨p, hq, tv, htv, hstr⟩
      exact ⟨p, hq, by rw [htv, hstr]⟩
    · rintro ⟨p, hq, ht⟩
      exact ⟨p, hq, Json.str t, ht, rfl⟩

/-- Claim C3 amended, witness: the characterization applied to a concrete Links
payload yields the title of the single entry under query.pages. -/
theorem get_pathinfo_characterization_witness :
    WikipediaBody.get_pathinfo
      (.links (Json.obj [(chs ("query"),
        Json.obj [(chs ("pages"),
          Json.obj [(chs ("123"),
            Json.obj [(chs ("title"), Json.str (chs ("Krumkake")))])])])])) =
      .ok (chs ("Krumkake")) := by
  exact (get_pathinfo_characterization.2.1 _ _).mpr
    ⟨_, chs ("123"), _, [], rfl, rfl, rfl⟩

/- ### The graph model (graph/mod.rs with the petgraph StableDiGraph backend)

Nodes are stored as an index-weight list in insertion order with a fresh-index
counter; edges are a list of directed pairs (petgraph add_edge appends and
permits parallel edges).  node_weight and node_exists_with_value return the
first match, contains_edge is membership. -/

structure Graph where
  nodes : List (Nat × WikipediaPage)
  edges : List (Nat × Nat)
  nextId : Nat

namespace Graph

/-- WikipediaGraph::add_node via StableDiGraph::add_node: append the weight
under a fresh index and return that index. -/
def add_node (g : Graph) (page : WikipediaPage) : Graph × Nat :=
  ({ g with nodes := g.nodes ++ [(g.nextId, page)], nextId := g.nextId + 1 }, g.nextId)

/-- WikipediaGraph::add_edge via StableDiGraph::add_edge: append the directed
pair (parallel edges are permitted). -/
def add_edge (g : Graph) (a b : Nat) : Graph :=
  { g with edges := g.edges ++ [(a, b)] }

/-- WikipediaGraph::node_weight: the weight stored under an index. -/
def node_weight (g : Graph) (index : Nat) : Option WikipediaPage :=
  (g.nodes.find? (fun n => decide (n.1 = index))).map Prod.snd

/-- WikipediaGraph::node_indicies: all weights with their indices. -/
def node_indicies (g : Graph) : List (WikipediaPage × Nat) :=
  g.nodes.map (fun n => (n.2, n.1))

/-- WikipediaGraph::edge_exists via StableDiGraph::contains_edge. -/
def edge_exists (g : Graph) (lhs rhs : Nat) : Bool :=
  g.edges.any (fun e => decide (e = (lhs, rhs)))

/-- WikipediaGraph::node_exists_with_value: the index of the first node whose
pathinfo equals the given page's pathinfo. -/
def node_exists_with_value (g : Graph) (page : WikipediaPage) : Option Nat :=
  ((g.node_indicies).find?
    (fun node => decide (page.pathinfo = node.1.pathinfo))).map Prod.snd

/-- The body of the for loop of try_expand_node over the linked pages: an
existing node with the same pathinfo receives an edge from the expanded node
unless one already exists; an unknown page becomes a new node whose index is
recorded. -/
def expandLoop (index : Nat) : Graph → List Nat → List WikipediaPage → Graph × List Nat
  | g, acc, [] => (g, acc)
  | g, acc, page :: pages =>
    match g.node_exists_with_value page with
    | some existing_index =>
      if g.edge_exists index existing_index then expandLoop index g acc pages
      else expandLoop index (g.add_edge index existing_index) acc pages
    | none =>
      let r := g.add_node page
      expandLoop index r.1 (acc ++ [r.2]) pages

/-- The closing for_each of try_expand_node: add an edge from the expanded node
to every newly created node. -/
def addEdgesTo (index : Nat) : Graph → List Nat → Graph
  | g, [] => g
  | g, n :: ns => addEdgesTo index (g.add_edge index n) ns

/-- WikipediaGraph::try_expand_node: place all linked pages of the node's page
as nodes on the graph and return only the newly created node indices, or None
if the index does not resolve or the page yields no linked-page list. -/
def try_expand_node (g : Graph) (index : Nat) : Option (Graph × List Nat) :=
  (g.node_weight index).bind (fun page =>
    (page.try_get_linked_pages).map (fun linked_pages =>
      let r := expandLoop index g [] linked_pages
      (addEdgesTo index r.1 r.2, r.2)))

end Graph

namespace Graph

/-- Monotone extension of a graph: the node list grows only by appending and no
edge is lost.  Every operation performed by try_expand_node extends the graph
in this sense. -/
def Ext (g g2 : Graph) : Prop :=
  (∃ t, g2.nodes = g.nodes ++ t) ∧ ∀ e ∈ g.edges, e ∈ g2.edges

theorem Ext.rfl {g : Graph} : Ext g g :=
  ⟨⟨[], by simp⟩, fun _ h => h⟩

theorem Ext.trans {g1 g2 g3 : Graph} (h12 : Ext g1 g2) (h23 : Ext g2 g3) : Ext g1 g3 := by
  obtain ⟨⟨t1, hn1⟩, he1⟩ := h12
  obtain ⟨⟨t2, hn2⟩, he2⟩ := h23
  exact ⟨⟨t1 ++ t2, by simp [hn2, hn1]⟩, fun e he => he2 e (he1 e he)⟩

theorem ext_add_edge {g : Graph} {a b : Nat} : Ext g (g.add_edge a b) :=
  ⟨⟨[], by simp [add_edge]⟩, fun e he => by simp [add_edge]; exact Or.inl he⟩

theorem ext_add_node {g : Graph} {p : WikipediaPage} : Ext g (g.add_node p).1 :=
  ⟨⟨[(g.nextId, p)], by simp [add_node]⟩, fun e he => he⟩

theorem find?_append_some {α : Type} {l1 l2 : List α} {f : α → Bool} {x : α}
    (h : l1.find? f = some x) : (l1 ++ l2).find? f = some x := by
  induction l1 with
  | nil => simp [List.find?] at h
  | cons a as ih =>
    rw [List.cons_append]
    cases hf : f a with
    | true => rw [List.find?_cons_of_pos _ hf] at h ⊢; exact h
    | false =>
      rw [List.find?_cons_of_neg _ (by simp [hf])] at h ⊢
      exact ih h

theorem find?_append_none {α : Type} {l1 l2 : List α} {f : α → Bool}
    (h : l1.find? f = none) : (l1 ++ l2).find? f = l2.find? f := by
  induction l1 with
  | nil => simp
  | cons a as ih =>
    rw [List.cons_append]
    cases hf : f a with
    | true => rw [List.find?_cons_of_pos _ hf] at h; exact absurd h (by simp)
    | false =>
      rw [List.find?_cons_of_neg _ (by simp [hf])] at h ⊢
      exact ih h

theorem node_weight_mono {g g2 : Graph} {i : Nat} {p : WikipediaPage}
    (hext : Ext g g2) (h : g.node_weight i = some p) : g2.node_weight i = some p := by
  obtain ⟨⟨t, hn⟩, _⟩ := hext
  unfold node_weight at h ⊢
  rw [hn]
  obtain ⟨x, hx, hxp⟩ := Option.map_eq_some'.mp h
  rw [find?_append_some hx]
  simp [hxp]

theorem nev_mono {g g2 : Graph} {p : WikipediaPage} {e : Nat}
    (hext : Ext g g2) (h : g.node_exists_with_value p = some e) :
    g2.node_exists_with_value p = some e := by
  obtain ⟨⟨t, hn⟩, _⟩ := hext
  unfold node_exists_with_value node_indicies at h ⊢
  rw [hn, List.map_append]
  obtain ⟨x, hx, hxp⟩ := Option.map_eq_some'.mp h
  rw [find?_append_some hx]
  simp [hxp]

theorem nev_congr_nodes {g g2 : Graph} {p : WikipediaPage}
    (h : g.nodes = g2.nodes) :
    g.node_exists_with_value p = g2.node_exists_with_value p := by
  unfold node_exists_with_value node_indicies
  rw [h]

theorem edge_exists_iff {g : Graph} {a b : Nat} :
    g.edge_exists a b = true ↔ (a, b) ∈ g.edges := by
  unfold edge_exists
  rw [List.any_eq_true]
  constructor
  · rintro ⟨e, he, hdec⟩
    rw [decide_eq_true_eq] at hdec
    rwa [← hdec]
  · intro h
    exact ⟨(a, b), h, by simp⟩

theorem mem_add_edge {g : Graph} {a b : Nat} : (a, b) ∈ (g.add_edge a b).edges := by
  simp [add_edge]

theorem nev_add_node_fresh {g : Graph} {p : WikipediaPage}
    (h : g.node_exists_with_value p = none) :
    (g.add_node p).1.node_exists_with_value p = some (g.add_node p).2 := by
  have h2 : (g.nodes.map (fun n => (n.2, n.1))).find?
      (fun node => decide (p.pathinfo = node.1.pathinfo)) = none := by
    unfold node_exists_with_value node_indicies at h
    simpa using h
  unfold node_exists_with_value node_indicies add_node
  simp only [List.map_append, List.map_cons, List.map_nil]
  rw [find?_append_none h2]
  simp [List.find?]

theorem addEdgesTo_nodes (index : Nat) : ∀ (ns : List Nat) (g : Graph),
    (addEdgesTo index g ns).nodes = g.nodes := by
  intro ns
  induction ns with
  | nil => intro g; rfl
  | cons n ns ih => intro g; rw [addEdgesTo, ih]; rfl

theorem ext_addEdgesTo (index : Nat) : ∀ (ns : List Nat) (g : Graph),
    Ext g (addEdgesTo index g ns) := by
  intro ns
  induction ns with
  | nil => intro g; exact Ext.rfl
  | cons n ns ih => intro g; exact Ext.trans ext_add_edge (ih (g.add_edge index n))

theorem mem_addEdgesTo (index : Nat) : ∀ (ns : List Nat) (g : Graph),
    ∀ n ∈ ns, (index, n) ∈ (addEdgesTo index g ns).edges := by
  intro ns
  induction ns with
  | nil => intro g n hn; simp at hn
  | cons m ms ih =>
    intro g n hn
    rw [addEdgesTo]
    rcases List.mem_cons.mp hn with h | h
    · subst h
      exact (ext_addEdgesTo index ms (g.add_edge index n)).2 _ mem_add_edge
    · exact ih (g.add_edge index m) n h

/-- Invariants established by the expansion loop: the graph is extended, the
accumulator grows only by appending, and every processed page has a node whose
index either already carries an edge from the expanded node or is recorded in
the accumulator for the closing edge pass. -/
theorem expandLoop_spec (index : Nat) :
    ∀ (pages : List WikipediaPage) (g : Graph) (acc : List Nat),
      Ext g (expandLoop index g acc pages).1 ∧
      (∃ d, (expandLoop index g acc pages).2 = acc ++ d) ∧
      ∀ p ∈ pages, ∃ e,
        (expandLoop index g acc pages).1.node_exists_with_value p = some e ∧
        ((index, e) ∈ (expandLoop index g acc pages).1.edges ∨
          e ∈ (expandLoop index g acc pages).2) := by
  intro pages
  induction pages with
  | nil =>
    intro g acc
    exact ⟨Ext.rfl, ⟨[], by simp [expandLoop]⟩, by simp⟩
  | cons p ps ih =>
    intro g acc
    rw [expandLoop]
    cases hnev : g.node_exists_with_value p with
    | some e =>
      cases hedge : g.edge_exists index e with
      | true =>
        simp only [hnev, hedge]
        obtain ⟨hext, hacc, hpost⟩ := ih g acc
        refine ⟨hext, hacc, ?_⟩
        intro q hq
        rcases List.mem_cons.mp hq with h | h
        · subst h
          exact ⟨e, nev_mono hext hnev,
            Or.inl (hext.2 _ (edge_exists_iff.mp hedge))⟩
        · exact hpost q h
      | false =>
        simp only [hnev, hedge, Bool.false_eq_true, if_false]
        obtain ⟨hext, hacc, hpost⟩ := ih (g.add_edge index e) acc
        refine ⟨Ext.trans ext_add_edge hext, hacc, ?_⟩
        intro q hq
        rcases List.mem_cons.mp hq with h | h
        · subst h
          have hnev2 : (g.add_edge index e).node_exists_with_value q = some e := by
            have hnodes : g.nodes = (g.add_edge index e).nodes := rfl
            rw [← nev_congr_nodes hnodes]
            exact hnev
          exact ⟨e, nev_mono hext hnev2, Or.inl (hext.2 _ mem_add_edge)⟩
        · exact hpost q h
    | none =>
      simp only [hnev]
      obtain ⟨hext, hacc, hpost⟩ := ih (g.add_node p).1 (acc ++ [(g.add_node p).2])
      refine ⟨Ext.trans ext_add_node hext, ?_, ?_⟩
      · obtain ⟨d, hd⟩ := hacc
        exact ⟨(g.add_node p).2 :: d, by simp [hd]⟩
      · intro q hq
        rcases List.mem_cons.mp hq with h | h
        · subst h
          refine ⟨(g.add_node q).2, nev_mono hext (nev_add_node_fresh hnev), Or.inr ?_⟩
          obtain ⟨d, hd⟩ := hacc
          rw [hd]
          simp
        · exact hpost q h

/-- When every linked page already has a node and an edge from the expanded
node, the expansion loop changes nothing. -/
theorem expandLoop_noop (index : Nat) :
    ∀ (pages : List WikipediaPage) (g : Graph) (acc : List Nat),
      (∀ p ∈ pages, ∃ e, g.node_exists_with_value p = some e ∧
        g.edge_exists index e = true) →
      expandLoop index g acc pages = (g, acc) := by
  intro pages
  induction pages with
  | nil => intro g acc _; rfl
  | cons p ps ih =>
    intro g acc h
    obtain ⟨e, hnev, hedge⟩ := h p (by simp)
    rw [expandLoop]
    simp only [hnev, hedge, if_true]
    exact ih g acc (fun q hq => h q (List.mem_cons_of_mem _ hq))

/-- After a successful expansion, every linked page of the expanded node has a
node in the result and an edge from the expanded node to it, and the node
weight of the expanded node is unchanged. -/
theorem try_expand_post {g g1 : Graph} {index : Nat} {new : List Nat}
    (h : g.try_expand_node index = some (g1, new)) :
    Ext g g1 ∧
    ∃ page linked_pages, g.node_weight index = some page ∧
      page.try_get_linked_pages = some linked_pages ∧
      g1.node_weight index = some page ∧
      ∀ p ∈ linked_pages, ∃ e,
        g1.node_exists_with_value p = some e ∧ (index, e) ∈ g1.edges := by
  unfold try_expand_node at h
  obtain ⟨page, hw, h2⟩ := Option.bind_eq_some.mp h
  obtain ⟨linked, hl, h3⟩ := Option.map_eq_some'.mp h2
  have hg1 : addEdgesTo index (expandLoop index g [] linked).1
      (expandLoop index g [] linked).2 = g1 := congrArg Prod.fst h3
  obtain ⟨hextL, -, hpost⟩ := expandLoop_spec index linked g []
  set r := expandLoop index g [] linked with hr
  have hextA : Ext r.1 g1 := hg1 ▸ ext_addEdgesTo index r.2 r.1
  have hext : Ext g g1 := Ext.trans hextL hextA
  refine ⟨hext, page, linked, hw, hl, node_weight_mono hext hw, ?_⟩
  intro p hp
  obtain ⟨e, hnev, hor⟩ := hpost p hp
  refine ⟨e, nev_mono hextA hnev, ?_⟩
  rcases hor with hmem | hacc
  · exact hextA.2 _ hmem
  · rw [← hg1]
    exact mem_addEdgesTo index r.2 r.1 e hacc

end Graph

/- ### Claim C1 material -/

/-- Claim C1: expansion is idempotent.  If expanding a node succeeds, expanding
the same node again on the resulting, otherwise unchanged graph returns an
empty newly-created set and leaves the graph (nodes and edges alike) exactly as
it was: no second node for an already-present pathinfo and no edge-count
increase. -/
theorem try_expand_node_idempotent (g : Graph) (index : Nat) (g1 : Graph)
    (new : List Nat) (h : g.try_expand_node index = some (g1, new)) :
    g1.try_expand_node index = some (g1, []) := by
  obtain ⟨-, page, linked, -, hl, hw1, hpost⟩ := Graph.try_expand_post h
  unfold Graph.try_expand_node
  rw [hw1]
  rw [Option.bind_eq_some]
  refine ⟨page, rfl, ?_⟩
  rw [hl]
  have hnoop : Graph.expandLoop index g1 [] linked = (g1, []) :=
    Graph.expandLoop_noop index linked g1 []
      (fun p hp => by
        obtain ⟨e, hnev, hmem⟩ := hpost p hp
        exact ⟨e, hnev, Graph.edge_exists_iff.mpr hmem⟩)
  simp [hnoop, Graph.addEdgesTo]

/-- A links payload with a given page title and link titles, shaped like the
query-links API response. -/
def linksPayload (title : Str) (linkTitles : List Str) : Json :=
  Json.obj [(chs ("query"),
    Json.obj [(chs ("pages"),
      Json.obj [(chs ("1"),
        Json.obj [(chs ("title"), Json.str title),
          (chs ("links"),
            Json.arr (linkTitles.map (fun t => Json.obj [(chs ("title"), Json.str t)])))])])])]

/-- A one-node graph whose page body links to a single new page. -/
def gWitC1 : Graph :=
  ⟨[(0, ⟨chs ("Multekrem"),
    some (.links (linksPayload (chs ("Multekrem")) [chs ("Norway")]))⟩)], [], 1⟩

/-- The expansion of gWitC1: one new node and one edge. -/
def gWitC1Expanded : Graph :=
  ⟨[(0, ⟨chs ("Multekrem"),
    some (.links (linksPayload (chs ("Multekrem")) [chs ("Norway")]))⟩),
    (1, ⟨chs ("Norway"), none⟩)], [(0, 1)], 2⟩

/-- Claim C1, witness: a concrete expansion creates one node and one edge, and
the second expansion of the same node returns the empty set and the unchanged
graph. -/
theorem try_expand_node_idempotent_witness :
    Graph.try_expand_node gWitC1 0 = some (gWitC1Expanded, [1]) ∧
    Graph.try_expand_node gWitC1Expanded 0 = some (gWitC1Expanded, []) :=
  ⟨by rfl, try_expand_node_idempotent gWitC1 0 gWitC1Expanded [1] (by rfl)⟩

/- ### Claim C4 material -/

/-- A one-node graph whose page body links to the page itself. -/
def gLoopC4 : Graph :=
  ⟨[(0, ⟨chs ("Loop"),
    some (.links (linksPayload (chs ("Loop")) [chs ("Loop")]))⟩)], [], 1⟩

/-- The expansion of gLoopC4: no new node, but a self-edge. -/
def gLoopC4Expanded : Graph :=
  ⟨[(0, ⟨chs ("Loop"),
    some (.links (linksPayload (chs ("Loop")) [chs ("Loop")]))⟩)], [(0, 0)], 1⟩

/-- Claim C4 counterexample: expanding a node whose loaded body links to the
node's own identity adds a self-edge from the node to itself, refuting that
try_expand_node never creates a self-edge. -/
theorem self_link_creates_self_edge_cex :
    Graph.try_expand_node gLoopC4 0 = some (gLoopC4Expanded, []) ∧
    (0, 0) ∈ gLoopC4Expanded.edges :=
  ⟨by rfl, by simp [gLoopC4Expanded]⟩

/-- Claim C4 amended: an equal-identity link target is treated exactly like any
other pre-existing node, which means it receives an edge: whenever the expanded
node's linked pages contain a page whose first identity match in the graph is
the expanded node itself, a successful expansion produces a graph containing
the self-edge. -/
theorem self_link_adds_self_edge (g : Graph) (index : Nat) (g1 : Graph)
    (new : List Nat) (p0 : WikipediaPage)
    (hself : g.node_exists_with_value p0 = some index)
    (h : g.try_expand_node index = some (g1, new))
    (hmem : ∀ page linked_pages, g.node_weight index = some page →
      page.try_get_linked_pages = some linked_pages → p0 ∈ linked_pages) :
    (index, index) ∈ g1.edges := by
  obtain ⟨hext, page, linked, hw, hl, -, hpost⟩ := Graph.try_expand_post h
  obtain ⟨e, hnev, hedge⟩ := hpost p0 (hmem page linked hw hl)
  have heq : some e = some index := by
    rw [← hnev, Graph.nev_mono hext hself]
  cases heq
  exact hedge

/-- A one-node graph for the C4 witness, with a different page identity. -/
def gOuroC4 : Graph :=
  ⟨[(0, ⟨chs ("Ouroboros"),
    some (.links (linksPayload (chs ("Ouroboros")) [chs ("Ouroboros")]))⟩)], [], 1⟩

/-- The expansion of gOuroC4, carrying the self-edge. -/
def gOuroC4Expanded : Graph :=
  ⟨[(0, ⟨chs ("Ouroboros"),
    some (.links (linksPayload (chs ("Ouroboros")) [chs ("Ouroboros")]))⟩)], [(0, 0)], 1⟩

/-- Claim C4 amended, witness: the self-edge theorem applied to a concrete
self-linking page. -/
theorem self_link_adds_self_edge_witness :
    (0, 0) ∈ gOuroC4Expanded.edges :=
  self_link_adds_self_edge gOuroC4 0 gOuroC4Expanded []
    (WikipediaPage.from_title (chs ("Ouroboros"))) (by rfl) (by rfl)
    (fun page linked hw hl => by
      have hpage : some (⟨chs ("Ouroboros"),
          some (.links (linksPayload (chs ("Ouroboros")) [chs ("Ouroboros")]))⟩ :
            WikipediaPage) = some page := Eq.trans (by rfl) hw
      cases hpage
      have hlinked : some [WikipediaPage.from_title (chs ("Ouroboros"))] = some linked :=
        Eq.trans (by rfl) hl
      cases hlinked
      simp)

/- ### Claim C7 material -/

/-- The empty graph. -/
def gEmptyC7 : Graph := ⟨[], [], 0⟩

/-- A graph with one node whose page has no body loaded. -/
def gUnloadedC7 : Graph := ⟨[(0, ⟨chs ("Waffle"), none⟩)], [], 1⟩

/-- Claim C7 counterexample: an index that resolves to no node and a node whose
page has no loaded body make try_expand_node return the very same value None,
so the two failure outcomes are not distinguishable by the caller and no
NodeNotFound or PageNotLoaded value is ever reported. -/
theorem expand_failures_indistinguishable_cex :
    Graph.try_expand_node gEmptyC7 0 = Graph.try_expand_node gUnloadedC7 0 ∧
    Graph.try_expand_node gEmptyC7 0 = none :=
  ⟨by rfl, by rfl⟩

/-- Claim C7 amended: the expansion operation never fetches (it is a pure
function of the graph) and fails by returning None both when the index does not
resolve to a node and when the resolved page has no loaded body; the two
failure cases yield the same indistinguishable None. -/
theorem try_expand_node_failure_modes (g : Graph) (index : Nat)
    (h : g.node_weight index = none ∨
      ∃ page, g.node_weight index = some page ∧ page.body = none) :
    g.try_expand_node index = none := by
  unfold Graph.try_expand_node
  rcases h with h | ⟨page, hw, hb⟩
  · rw [h]; rfl
  · rw [hw]
    simp [WikipediaPage.try_get_linked_pages, hb]

/-- Claim C7 amended, witness: the failure-mode theorem applied to a concrete
unresolved index and to a concrete unloaded page. -/
theorem try_expand_node_failure_modes_witness :
    Graph.try_expand_node gEmptyC7 5 = none ∧
    Graph.try_expand_node gUnloadedC7 0 = none :=
  ⟨try_expand_node_failure_modes gEmptyC7 5 (Or.inl rfl),
    try_expand_node_failure_modes gUnloadedC7 0
      (Or.inr ⟨⟨chs ("Waffle"), none⟩, rfl, rfl⟩)⟩

/- ### Claim C2 material -/

/-- Claim C2 counterexample: on a Links payload whose links array contains a
duplicate target and a filtered title, the linked-pages sequence yields the
duplicate twice and yields the filtered title, refuting that deduplication and
exclusion-list filtering apply to every body variant. -/
theorem links_variant_no_dedup_cex :
    (WikipediaBody.get_linked_pages (.links (linksPayload (chs ("Multekrem"))
        [chs ("Dessert"), chs ("Dessert"), chs ("Wayback Machine")]))).map
      (fun l => l.map WikipediaPage.pathinfo) =
      some [chs ("Dessert"), chs ("Dessert"), chs ("Wayback_Machine")] ∧
    ¬ ([chs ("Dessert"), chs ("Dessert"), chs ("Wayback_Machine")] : List Str).Nodup ∧
    chs ("Wayback_Machine") ∈
      [chs ("Dessert"), chs ("Dessert"), chs ("Wayback_Machine")] := by
  refine ⟨by rfl, by decide, by decide⟩

theorem linkChar_ne_underscore {c : Char} (h : linkChar c = true) : c ≠ '_' := by
  intro hc
  subst hc
  exact absurd h (by decide)

theorem infix_brackets (g t : Str) : g <:+: '[' :: '[' :: (g ++ t) :=
  ⟨['[', '['], t, by simp⟩

theorem matchLink_spec {s full g rest : Str} (h : matchLink s = some (full, g, rest)) :
    (∀ c ∈ g, linkChar c = true) ∧ g <:+: full := by
  unfold matchLink at h
  split at h
  case h_2 => exact absurd h (by simp)
  case h_1 r =>
    dsimp only at h
    split at h
    · exact absurd h (by simp)
    · split at h
      case h_1 rest2 =>
        simp only [Option.some.injEq, Prod.mk.injEq] at h
        obtain ⟨hfull, hg, -⟩ := h
        subst hg
        subst hfull
        exact ⟨fun c hc => List.mem_takeWhile_imp hc, infix_brackets _ _⟩
      case h_2 r2 =>
        split at h
        · exact absurd h (by simp)
        · split at h
          case h_1 rest2 =>
            simp only [Option.some.injEq, Prod.mk.injEq] at h
            obtain ⟨hfull, hg, -⟩ := h
            subst hg
            subst hfull
            exact ⟨fun c hc => List.mem_takeWhile_imp hc, infix_brackets _ _⟩
          case h_2 => exact absurd h (by simp)
      case h_3 => exact absurd h (by simp)

theorem scanLinksGo_spec : ∀ (fuel : Nat) (s full g : Str),
    (full, g) ∈ scanLinksGo fuel s →
    (∀ c ∈ g, linkChar c = true) ∧ g <:+: full := by
  intro fuel
  induction fuel with
  | zero => intro s full g h; simp [scanLinksGo] at h
  | succ n ih =>
    intro s full g h
    cases s with
    | nil => simp [scanLinksGo] at h
    | cons c cs =>
      rw [scanLinksGo] at h
      cases hm : matchLink (c :: cs) with
      | some m =>
        obtain ⟨mf, mg, mr⟩ := m
        rw [hm] at h
        rcases List.mem_cons.mp h with heq | hmem
        · obtain ⟨hf, hg⟩ := Prod.mk.injEq .. ▸ heq
          subst hf
          subst hg
          exact matchLink_spec hm
        · exact ih mr full g hmem
      | none =>
        rw [hm] at h
        exact ih cs full g h

theorem scanLinks_spec {s full g : Str} (h : (full, g) ∈ scanLinks s) :
    (∀ c ∈ g, linkChar c = true) ∧ g <:+: full :=
  scanLinksGo_spec s.length s full g h

theorem uniqueByAux_subset {α β : Type} [DecidableEq β] (key : α → β) :
    ∀ (l : List α) (seen : List β) (x : α), x ∈ uniqueByAux key seen l → x ∈ l := by
  intro l
  induction l with
  | nil => intro seen x h; simp [uniqueByAux] at h
  | cons a as ih =>
    intro seen x h
    rw [uniqueByAux] at h
    split at h
    · exact List.mem_cons_of_mem _ (ih seen x h)
    · rcases List.mem_cons.mp h with heq | hmem
      · exact heq ▸ List.mem_cons_self _ _
      · exact List.mem_cons_of_mem _ (ih _ x hmem)

theorem uniqueByAux_nodup {α β : Type} [DecidableEq β] (key : α → β) :
    ∀ (l : List α) (seen : List β),
      ((uniqueByAux key seen l).map key).Nodup ∧
      ∀ x ∈ uniqueByAux key seen l, key x ∉ seen := by
  intro l
  induction l with
  | nil => intro seen; constructor <;> simp [uniqueByAux]
  | cons a as ih =>
    intro seen
    rw [uniqueByAux]
    split
    case isTrue hmem =>
      exact ⟨(ih seen).1, (ih seen).2⟩
    case isFalse hna =>
      obtain ⟨hnd, hni⟩ := ih (key a :: seen)
      refine ⟨?_, ?_⟩
      · rw [List.map_cons, List.nodup_cons]
        refine ⟨fun hmem => ?_, hnd⟩
        obtain ⟨x, hx, hxk⟩ := List.mem_map.mp hmem
        exact hni x hx (hxk ▸ List.mem_cons_self _ _)
      · intro x hx
        rcases List.mem_cons.mp hx with heq | hmem
        · subst heq; exact hna
        · intro hseen
          exact hni x hmem (List.mem_cons_of_mem _ hseen)

theorem replace_roundtrip {l : Str} (h : ∀ c ∈ l, c ≠ '_') :
    replaceChar '_' ' ' (replaceChar ' ' '_' l) = l := by
  unfold replaceChar
  rw [List.map_map]
  have hpt : ∀ c ∈ l,
      ((fun c => if c = '_' then ' ' else c) ∘ (fun c => if c = ' ' then '_' else c)) c =
        id c := by
    intro c hc
    by_cases hcs : c = ' '
    · subst hcs; simp
    · simp [Function.comp, hcs, h c hc]
  rw [List.map_congr_left hpt, List.map_id]

/-- Members of the wikitext capture pipeline come from the scan, have capture
strings over the regex character class, and survived the exclusion filter. -/
theorem wikitextCaptures_mem {s : Str} {cd : Str × Str} (h : cd ∈ WikipediaBody.wikitextCaptures s) :
    (∀ c ∈ cd.2, linkChar c = true) ∧ cd.2 <:+: cd.1 ∧
    ¬ (chs ("Wayback Machine") <:+: cd.1) := by
  unfold WikipediaBody.wikitextCaptures at h
  obtain ⟨hmem, hfil⟩ := List.mem_filter.mp h
  have hscan : cd ∈ scanLinks s := uniqueByAux_subset Prod.snd _ [] cd hmem
  obtain ⟨hchars, hinf⟩ := scanLinks_spec hscan
  refine ⟨hchars, hinf, ?_⟩
  have hb : strContains cd.1 (chs ("Wayback Machine")) = false := by
    simp only [WikipediaBody.FILTERED_PAGES, List.all_cons, List.all_nil, Bool.and_true] at hfil
    simpa using hfil
  exact of_decide_eq_false hb

/-- Claim C2 amended: the deduplication-by-first-occurrence and exclusion-list
guarantees hold for the WikiText variant only: every linked-page list produced
from a WikiText body has pairwise distinct pathinfos and contains no page whose
identity is the filtered Wayback Machine title.  (The Links variant yields the
link titles unchanged, without deduplication or filtering, as the
counterexample shows.) -/
theorem wikitext_linked_pages_dedup_filtered (v : Json) (l : List WikipediaPage)
    (h : WikipediaBody.get_linked_pages (.wikiText v) = some l) :
    (l.map WikipediaPage.pathinfo).Nodup ∧
    ∀ pg ∈ l, pg.pathinfo ≠ (WikipediaPage.from_title (chs ("Wayback Machine"))).pathinfo := by
  have h2 : WikipediaBody.get_linked_pages_from_wikitext v = some l := h
  unfold WikipediaBody.get_linked_pages_from_wikitext at h2
  obtain ⟨s, hs, hl⟩ := Option.map_eq_some'.mp h2
  subst hl
  constructor
  · rw [List.map_map]
    have hmapeq : (WikipediaBody.wikitextCaptures s).map
        (WikipediaPage.pathinfo ∘ fun capture_data => WikipediaPage.from_title capture_data.2) =
        ((WikipediaBody.wikitextCaptures s).map Prod.snd).map (replaceChar ' ' '_') := by
      rw [List.map_map]
      rfl
    rw [hmapeq]
    have hkeysnd : (((WikipediaBody.wikitextCaptures s).map Prod.snd) : List Str).Nodup := by
      have hfil : List.Sublist (WikipediaBody.wikitextCaptures s)
          (uniqueBy Prod.snd (scanLinks s)) := by
        unfold WikipediaBody.wikitextCaptures
        exact List.filter_sublist _
      have hnd : ((uniqueBy Prod.snd (scanLinks s)).map Prod.snd).Nodup :=
        (uniqueByAux_nodup Prod.snd (scanLinks s) []).1
      exact hnd.sublist (hfil.map Prod.snd)
    refine hkeysnd.map_on ?_
    intro x hx y hy hxy
    obtain ⟨cdx, hcdx, hcdx2⟩ := List.mem_map.mp hx
    obtain ⟨cdy, hcdy, hcdy2⟩ := List.mem_map.mp hy
    have hxchars : ∀ c ∈ x, c ≠ '_' := by
      intro c hc
      exact linkChar_ne_underscore ((wikitextCaptures_mem hcdx).1 c (hcdx2 ▸ hc))
    have hychars : ∀ c ∈ y, c ≠ '_' := by
      intro c hc
      exact linkChar_ne_underscore ((wikitextCaptures_mem hcdy).1 c (hcdy2 ▸ hc))
    calc x = replaceChar '_' ' ' (replaceChar ' ' '_' x) := (replace_roundtrip hxchars).symm
      _ = replaceChar '_' ' ' (replaceChar ' ' '_' y) := by rw [hxy]
      _ = y := replace_roundtrip hychars
  · intro pg hpg hcontr
    obtain ⟨cd, hcd, hcd2⟩ := List.mem_map.mp hpg
    obtain ⟨hchars, hinf, hnw⟩ := wikitextCaptures_mem hcd
    have hpath : replaceChar ' ' '_' cd.2 = replaceChar ' ' '_' (chs ("Wayback Machine")) := by
      have := hcontr
      rw [← hcd2] at this
      exact this
    have hcdeq : cd.2 = chs ("Wayback Machine") := by
      have hnu : ∀ c ∈ cd.2, c ≠ '_' := fun c hc => linkChar_ne_underscore (hchars c hc)
      calc cd.2 = replaceChar '_' ' ' (replaceChar ' ' '_' cd.2) := (replace_roundtrip hnu).symm
        _ = replaceChar '_' ' ' (replaceChar ' ' '_' (chs ("Wayback Machine"))) := by rw [hpath]
        _ = chs ("Wayback Machine") := by decide
    exact hnw (hcdeq ▸ hinf)

/-- A wikitext payload with a duplicated bracket link and a filtered link. -/
def wikitextDupJson : Json :=
  Json.obj [(chs ("parse"),
    Json.obj [(chs ("wikitext"),
      Json.obj [(chs ("*"),
        Json.str (chs ("[[Norway]] [[Dessert|sweets]] [[Dessert]] [[Wayback Machine]]")))])])]

/-- Claim C2 amended, witness: the dedup and filter theorem applied to a
concrete wikitext payload with one duplicate and one excluded link. -/
theorem wikitext_linked_pages_dedup_filtered_witness :
    (([WikipediaPage.from_title (chs ("Norway")),
        WikipediaPage.from_title (chs ("Dessert"))].map WikipediaPage.pathinfo)).Nodup ∧
    ∀ pg ∈ [WikipediaPage.from_title (chs ("Norway")),
        WikipediaPage.from_title (chs ("Dessert"))],
      pg.pathinfo ≠ (WikipediaPage.from_title (chs ("Wayback Machine"))).pathinfo :=
  wikitext_linked_pages_dedup_filtered wikitextDupJson
    [WikipediaPage.from_title (chs ("Norway")), WikipediaPage.from_title (chs ("Dessert"))]
    (by rfl)

/- ### The fetch engine (client/client.rs get_request and client/mod.rs)

A transport response carries the status code, the optional Location header and
the optional body text; the transport itself is a function from the request URL
to the hop outcome, with the delivery delay in milliseconds standing for the
time the worker takes to deposit the result. -/

structure HttpResponse where
  status : Nat
  location : Option Str
  text : Option Str

/-- The HttpError variants of client/client.rs that the redirect loop can
produce. -/
inductive HttpError where
  | backend : Str → HttpError
  | pageNotFound : HttpError
  | timeout : HttpError
  | noPageBody : HttpError
  | tooManyRedirects : HttpError
  | redirect : Str → HttpError
  | unknown : Nat → HttpError

/-- CLIENT_REDIRECTS from client/mod.rs: the amount of redirects the client
accepts. -/
def CLIENT_REDIRECTS : Nat := 2

/-- WikipediaClient::parse_status_code: a 3xx with a Location header becomes the
internal Redirect pseudo-error, 404 becomes PageNotFound, 2xx passes the
response through, anything else is Unknown. -/
def parse_status_code (r : HttpResponse) : Except HttpError HttpResponse :=
  if 300 ≤ r.status ∧ r.status < 400 then
    match r.location with
    | some redirect_url => .error (.redirect redirect_url)
    | none =>
      if r.status = 404 then .error .pageNotFound
      else if 200 ≤ r.status ∧ r.status < 300 then .ok r
      else .error (.unknown r.status)
  else
    if r.status = 404 then .error .pageNotFound
    else if 200 ≤ r.status ∧ r.status < 300 then .ok r
    else .error (.unknown r.status)

/-- The response-processing closure inside get_request: map transport errors to
Backend, reject status codes outside the range StatusCode::from_u16 accepts as
Unknown, classify the status, then extract the body text or fail with
NoPageBody. -/
def process_response (result : Except Str HttpResponse) : Except HttpError Str :=
  ((result.mapError (fun err => HttpError.backend err)).bind
    (fun r =>
      if 100 ≤ r.status ∧ r.status ≤ 999 then parse_status_code r
      else .error (.unknown r.status))).bind
    (fun r =>
      match r.text with
      | some t => .ok t
      | none => .error .noPageBody)

/-- One transport hop: the result deposited by ehttp::fetch for a request, and
the delay in milliseconds until it is deposited. -/
structure Hop where
  delayMs : Nat
  result : Except Str HttpResponse

/-- The native fallback bound: recv_timeout is called with the configured
timeout or, when none is configured, Duration::from_hours(16). -/
def effective_timeout_native (timeout : Option Nat) : Nat :=
  timeout.getD (16 * 3600 * 1000)

/-- The wasm fallback bound: the poll loop times out after the configured
timeout or, when none is configured, Duration::from_hours(24). -/
def effective_timeout_wasm (timeout : Option Nat) : Nat :=
  timeout.getD (24 * 3600 * 1000)

/-- The redirect loop of get_request: while the remaining redirect budget is
nonzero, issue the request, wait for the hop result up to the effective
timeout, classify it, and either return the terminal outcome or continue at the
Location URL with a decremented budget; a budget of zero terminates with
TooManyRedirects. -/
def get_request_go (cap : Nat) (trans : Str → Hop) : Str → Nat → Except HttpError Str
  | _, 0 => .error .tooManyRedirects
  | url, n + 1 =>
    let hop := trans url
    if cap < hop.delayMs then .error .timeout
    else
      match process_response hop.result with
      | .error (.redirect redirect_url) => get_request_go cap trans redirect_url n
      | r => r

/-- WikipediaClient::get_request in the native (thread plus blocking channel)
environment. -/
def get_request (timeout : Option Nat) (trans : Str → Hop) (url : Str) :
    Except HttpError Str :=
  get_request_go (effective_timeout_native timeout) trans url CLIENT_REDIRECTS

/-- WikipediaClient::get_request in the wasm (cooperative polling) environment:
the same loop with the 24 hour fallback bound. -/
def get_request_wasm (timeout : Option Nat) (trans : Str → Hop) (url : Str) :
    Except HttpError Str :=
  get_request_go (effective_timeout_wasm timeout) trans url CLIENT_REDIRECTS

/- ### Claim C5 material -/

theorem process_response_redirect {hop : Hop} {r : HttpResponse} {u : Str}
    (hok : hop.result = .ok r) (h3 : 300 ≤ r.status ∧ r.status < 400)
    (hloc : r.location = some u) :
    process_response hop.result = .error (.redirect u) := by
  rw [hok]
  unfold process_response parse_status_code
  have hrange : 100 ≤ r.status ∧ r.status ≤ 999 := ⟨by omega, by omega⟩
  simp [hrange, h3, hloc, Except.mapError, Except.bind]

theorem get_request_go_redirect_step {cap n : Nat} {trans : Str → Hop}
    {url u : Str} {r : HttpResponse}
    (hdelay : (trans url).delayMs ≤ cap) (hok : (trans url).result = .ok r)
    (h3 : 300 ≤ r.status ∧ r.status < 400) (hloc : r.location = some u) :
    get_request_go cap trans url (n + 1) = get_request_go cap trans u n := by
  rw [get_request_go]
  simp only [if_neg (by omega : ¬ cap < (trans url).delayMs),
    process_response_redirect hok h3 hloc]

/-- Claim C5: the fetch engine follows redirects up to the default budget
CLIENT_REDIRECTS = 2.  A 3xx response with a Location header that arrives
within the timeout is not a terminal error: the loop continues at the Location
URL with the budget decremented by one.  When every hop keeps answering with a
3xx-with-Location within the timeout, the fetch terminates with
TooManyRedirects, never with a silent empty body. -/
theorem get_request_redirect_budget :
    CLIENT_REDIRECTS = 2 ∧
    (∀ (cap n : Nat) (trans : Str → Hop) (url u : Str) (r : HttpResponse),
      (trans url).delayMs ≤ cap → (trans url).result = .ok r →
      300 ≤ r.status ∧ r.status < 400 → r.location = some u →
      get_request_go cap trans url (n + 1) = get_request_go cap trans u n) ∧
    (∀ (timeout : Option Nat) (trans : Str → Hop) (url : Str),
      (∀ v : Str, (trans v).delayMs ≤ effective_timeout_native timeout ∧
        ∃ (r : HttpResponse) (u : Str), (trans v).result = .ok r ∧
          (300 ≤ r.status ∧ r.status < 400) ∧ r.location = some u) →
      get_request timeout trans url = .error .tooManyRedirects) := by
  refine ⟨rfl, ?_, ?_⟩
  · intro cap n trans url u r hdelay hok h3 hloc
    exact get_request_go_redirect_step hdelay hok h3 hloc
  · intro timeout trans url hall
    obtain ⟨hd1, r1, u1, hok1, h31, hloc1⟩ := hall url
    obtain ⟨hd2, r2, u2, hok2, h32, hloc2⟩ := hall u1
    unfold get_request
    rw [show CLIENT_REDIRECTS = 1 + 1 from rfl]
    rw [get_request_go_redirect_step hd1 hok1 h31 hloc1]
    rw [show (1 : Nat) = 0 + 1 from rfl]
    rw [get_request_go_redirect_step hd2 hok2 h32 hloc2]
    rfl

/-- A transport that answers every request with an immediate 301 redirect. -/
def transAllRedirect : Str → Hop :=
  fun _ => ⟨0, .ok ⟨301, some (chs ("next")), none⟩⟩

/-- Claim C5, witness: with a transport that always answers 301-with-Location,
one hop consumes one unit of budget and continues at the Location URL, and a
full default-budget fetch ends in TooManyRedirects. -/
theorem get_request_redirect_budget_witness :
    get_request_go 100 transAllRedirect (chs ("start")) 2 =
      get_request_go 100 transAllRedirect (chs ("next")) 1 ∧
    get_request none transAllRedirect (chs ("start")) = .error .tooManyRedirects :=
  ⟨get_request_redirect_budget.2.1 100 1 transAllRedirect (chs ("start")) (chs ("next"))
      ⟨301, some (chs ("next")), none⟩ (Nat.zero_le _) rfl (by decide) rfl,
    get_request_redirect_budget.2.2 none transAllRedirect (chs ("start"))
      (fun v => ⟨Nat.zero_le _,
        ⟨301, some (chs ("next")), none⟩, chs ("next"), rfl, by decide, rfl⟩)⟩

/- ### Claim C8 material -/

/-- A transport whose worker takes just over sixteen hours to deliver a
successful 200 response. -/
def transSlowC8 : Str → Hop :=
  fun _ => ⟨57600001, .ok ⟨200, none, some (chs ("ok"))⟩⟩

/-- Claim C8 counterexample: with no configured timeout, a fetch whose
transport delivers a valid 200 response after the sixteen-hour fallback bound
still fails with Timeout, refuting that the engine never itself produces a
Timeout failure when the timeout is absent. -/
theorem timeout_none_yields_timeout_cex :
    get_request none transSlowC8 (chs ("u")) = .error .timeout := by rfl

/-- Claim C8 amended: an absent timeout does not mean waiting indefinitely; it
falls back to a bound of sixteen hours in the thread-blocking environment and
twenty-four hours in the cooperative polled environment, after which the engine
itself produces a Timeout failure. -/
theorem timeout_none_fallback_caps :
    effective_timeout_native none = 57600000 ∧
    effective_timeout_wasm none = 86400000 ∧
    (∀ (trans : Str → Hop) (url : Str), 57600000 < (trans url).delayMs →
      get_request none trans url = .error .timeout) ∧
    (∀ (trans : Str → Hop) (url : Str), 86400000 < (trans url).delayMs →
      get_request_wasm none trans url = .error .timeout) := by
  refine ⟨rfl, rfl, ?_, ?_⟩
  · intro trans url h
    have hc : effective_timeout_native none < (trans url).delayMs := by
      simpa [effective_timeout_native] using h
    unfold get_request
    rw [show CLIENT_REDIRECTS = 1 + 1 from rfl, get_request_go, if_pos hc]
  · intro trans url h
    have hc : effective_timeout_wasm none < (trans url).delayMs := by
      simpa [effective_timeout_wasm] using h
    unfold get_request_wasm
    rw [show CLIENT_REDIRECTS = 1 + 1 from rfl, get_request_go, if_pos hc]

/-- A transport that delivers a valid response after twenty-five hours. -/
def transSlowerC8 : Str → Hop :=
  fun _ => ⟨90000000, .ok ⟨200, none, some (chs ("late")) ⟩⟩

/-- Claim C8 amended, witness: the fallback-cap theorem applied to a concrete
slow transport in both environments. -/
theorem timeout_none_fallback_caps_witness :
    get_request none transSlowerC8 (chs ("w")) = .error .timeout ∧
    get_request_wasm none transSlowerC8 (chs ("w")) = .error .timeout :=
  ⟨timeout_none_fallback_caps.2.2.1 transSlowerC8 (chs ("w")) (by decide),
    timeout_none_fallback_caps.2.2.2 transSlowerC8 (chs ("w")) (by decide)⟩

/- ### The client configuration (client/mod.rs WikipediaClientConfig)

Header names and values are validated as in the http crate: a name must be a
nonempty run of token characters (letters, digits and the punctuation the RFC
allows) and is normalized to lowercase; a value must consist of visible
characters, spaces or tabs.  The header map is an association list;
HeaderMap::try_insert replaces the value of an existing name in place and
appends a new name (the maximum-capacity error of the http crate is not
modelled, it cannot trigger on the inputs considered). -/

/-- A legal HTTP header-name character (http crate HeaderName table):
alphanumeric or one of the RFC 7230 token symbols. -/
def headerNameChar (c : Char) : Bool :=
  c.isAlphanum || c ∈ ['!', '#', '$', '%', '&', '*', '+', '-', '.', '^', '_', '|', '~']
    || c.val = 39 || c.val = 96

/-- A legal HTTP header-value character: tab, or any character that is not a
control character. -/
def headerValueChar (c : Char) : Bool :=
  c.val = 9 || (32 ≤ c.val && c.val ≠ 127)

/-- HeaderName::from_str validity: nonempty and all characters legal. -/
def headerNameValid (s : Str) : Bool :=
  !s.isEmpty && s.all headerNameChar

/-- HeaderValue::from_str validity. -/
def headerValueValid (s : Str) : Bool :=
  s.all headerValueChar

/-- HeaderName normalization: ASCII uppercase letters map to lowercase. -/
def headerNameNormalize (s : Str) : Str :=
  s.map Char.toLower

/-- The header errors of client/mod.rs. -/
inductive HeaderError where
  | invalidHeaderName : HeaderError
  | invalidHeaderValue : HeaderError
  | headerMapMaxSizeReached : HeaderError
deriving DecidableEq

/-- WikipediaClientConfig from client/mod.rs. -/
structure WikipediaClientConfig where
  timeout : Option Nat
  headers : List (Str × Str)
  language : Str
  url_type : WikipediaUrlType

/-- HeaderMap::try_insert: replace the value stored under an existing name,
append a fresh name at the end. -/
def try_insert (m : List (Str × Str)) (n v : Str) : List (Str × Str) :=
  if m.any (fun p => decide (p.1 = n)) then
    m.map (fun p => if p.1 = n then (n, v) else p)
  else m ++ [(n, v)]

/-- Header lookup by exact name. -/
def headerLookup (m : List (Str × Str)) (n : Str) : Option Str :=
  (m.find? (fun p => decide (p.1 = n))).map Prod.snd

namespace WikipediaClientConfig

/-- WikipediaClientConfig::add_header: parse the name, parse the value, then
try_insert the pair into the header map. -/
def add_header (cfg : WikipediaClientConfig) (name value : Str) :
    Except HeaderError WikipediaClientConfig :=
  if headerNameValid name then
    if headerValueValid value then
      .ok { cfg with headers := try_insert cfg.headers (headerNameNormalize name) value }
    else .error .invalidHeaderValue
  else .error .invalidHeaderName

end WikipediaClientConfig

theorem lookup_try_insert_replaced {n v : Str} :
    ∀ m : List (Str × Str), m.any (fun p => decide (p.1 = n)) = true →
      headerLookup (m.map (fun p => if p.1 = n then (n, v) else p)) n = some v := by
  intro m
  induction m with
  | nil => intro h; simp at h
  | cons kv rest ih =>
    intro h
    by_cases hk : kv.1 = n
    · unfold headerLookup
      rw [List.map_cons, if_pos hk]
      rw [List.find?_cons_of_pos _ (by simp)]
      rfl
    · have hrest : rest.any (fun p => decide (p.1 = n)) = true := by
        rw [List.any_cons] at h
        simpa [hk] using h
      unfold headerLookup
      rw [List.map_cons, if_neg hk]
      rw [List.find?_cons_of_neg _ (by simp [hk])]
      exact ih hrest

theorem lookup_try_insert {m : List (Str × Str)} {n v : Str} :
    headerLookup (try_insert m n v) n = some v := by
  unfold try_insert
  cases hany : m.any (fun p => decide (p.1 = n)) with
  | true =>
    rw [if_pos rfl]
    exact lookup_try_insert_replaced m hany
  | false =>
    rw [if_neg (by simp [hany])]
    have hnone : m.find? (fun p => decide (p.1 = n)) = none := by
      rw [List.find?_eq_none]
      intro p hp hpx
      have h2 : m.any (fun p => decide (p.1 = n)) = true :=
        List.any_eq_true.mpr ⟨p, hp, hpx⟩
      rw [hany] at h2
      exact Bool.false_ne_true h2
    unfold headerLookup
    rw [Graph.find?_append_none hnone]
    rw [List.find?_cons_of_pos _ (by simp)]
    rfl

/- ### Claim C9 material -/

/-- A configuration already holding the header x-test: 1. -/
def cfgDupC9 : WikipediaClientConfig :=
  ⟨none, [(chs ("x-test"), chs ("1"))], chs ("en"), .rawApi⟩

/-- Claim C9 counterexample: adding a header whose name is already present
succeeds and silently replaces the earlier value instead of being rejected,
refuting duplicate-name rejection. -/
theorem duplicate_header_replaces_cex :
    WikipediaClientConfig.add_header cfgDupC9 (chs ("x-test")) (chs ("2")) =
      .ok ⟨none, [(chs ("x-test"), chs ("2"))], chs ("en"), .rawApi⟩ ∧
    headerLookup [(chs ("x-test"), chs ("2"))] (chs ("x-test")) = some (chs ("2")) :=
  ⟨by rfl, by rfl⟩

/-- Claim C9 amended: header validation happens synchronously when the header
is added: an illegal name fails with the InvalidHeaderName case of HeaderError
and an illegal value with InvalidHeaderValue, before any request exists; a
header whose name is already present is NOT rejected: the insert succeeds and
the stored value under that name becomes the new value, silently replacing the
earlier one. -/
theorem add_header_validation_and_replace :
    (∀ (cfg : WikipediaClientConfig) (n v : Str), headerNameValid n = false →
      WikipediaClientConfig.add_header cfg n v = .error .invalidHeaderName) ∧
    (∀ (cfg : WikipediaClientConfig) (n v : Str), headerNameValid n = true →
      headerValueValid v = false →
      WikipediaClientConfig.add_header cfg n v = .error .invalidHeaderValue) ∧
    (∀ (cfg : WikipediaClientConfig) (n v : Str), headerNameValid n = true →
      headerValueValid v = true →
      ∃ cfg2, WikipediaClientConfig.add_header cfg n v = .ok cfg2 ∧
        headerLookup cfg2.headers (headerNameNormalize n) = some v) := by
  refine ⟨?_, ?_, ?_⟩
  · intro cfg n v h
    simp [WikipediaClientConfig.add_header, h]
  · intro cfg n v hn hv
    simp [WikipediaClientConfig.add_header, hn, hv]
  · intro cfg n v hn hv
    refine ⟨{ cfg with headers := try_insert cfg.headers (headerNameNormalize n) v },
      ?_, lookup_try_insert⟩
    simp [WikipediaClientConfig.add_header, hn, hv]

/-- Claim C9 amended, witness: a name containing a space is rejected with
HeaderError, and inserting over an existing name stores the new value. -/
theorem add_header_validation_and_replace_witness :
    WikipediaClientConfig.add_header cfgDupC9 (chs ("bad name")) (chs ("x")) =
      .error .invalidHeaderName ∧
    ∃ cfg2, WikipediaClientConfig.add_header cfgDupC9 (chs ("X-Test")) (chs ("2")) =
      .ok cfg2 ∧
      headerLookup cfg2.headers (headerNameNormalize (chs ("X-Test"))) = some (chs ("2")) :=
  ⟨add_header_validation_and_replace.1 cfgDupC9 (chs ("bad name")) (chs ("x")) (by decide),
    add_header_validation_and_replace.2.2 cfgDupC9 (chs ("X-Test")) (chs ("2"))
      (by decide) (by decide)⟩

/- ### The derived title (page.rs title and capitalize)

Characters are handled at the ASCII level: Rust char::is_whitespace is modelled
by Char.isWhitespace and char::to_uppercase().next() by an explicit ASCII
letter table (non-ASCII characters pass through unchanged, which matches Rust
on the inputs the claims concern).  url_encor::decode is modelled as
percent-decoding: a percent sign followed by two hex digits becomes the decoded
character, anything else passes through. -/

/-- A hexadecimal digit. -/
def isHexDigit (c : Char) : Bool :=
  c.isDigit || ('a' ≤ c && c ≤ 'f') || ('A' ≤ c && c ≤ 'F')

/-- The value of a hexadecimal digit. -/
def hexVal (c : Char) : Nat :=
  if c.isDigit then c.toNat - 48
  else if 'a' ≤ c && c ≤ 'f' then c.toNat - 87
  else c.toNat - 55

/-- url_encor::decode, modelled as percent-decoding. -/
def urlDecode : Str → Str
  | [] => []
  | c :: rest =>
    if c = '%' then
      match rest with
      | a :: b :: rest2 =>
        if isHexDigit a && isHexDigit b then
          Char.ofNat (16 * hexVal a + hexVal b) :: urlDecode rest2
        else c :: urlDecode (a :: b :: rest2)
      | [a] => c :: urlDecode [a]
      | [] => [c]
    else c :: urlDecode rest

/-- Rust str::trim: remove leading and trailing whitespace. -/
def trimStr (l : Str) : Str :=
  ((l.dropWhile Char.isWhitespace).reverse.dropWhile Char.isWhitespace).reverse

/-- Rust char::to_uppercase().next() on the ASCII range: lowercase letters map
to the corresponding uppercase letter, everything else passes through. -/
def charToUppercase (c : Char) : Char :=
  match c with
  | 'a' => 'A' | 'b' => 'B' | 'c' => 'C' | 'd' => 'D' | 'e' => 'E' | 'f' => 'F'
  | 'g' => 'G' | 'h' => 'H' | 'i' => 'I' | 'j' => 'J' | 'k' => 'K' | 'l' => 'L'
  | 'm' => 'M' | 'n' => 'N' | 'o' => 'O' | 'p' => 'P' | 'q' => 'Q' | 'r' => 'R'
  | 's' => 'S' | 't' => 'T' | 'u' => 'U' | 'v' => 'V' | 'w' => 'W' | 'x' => 'X'
  | 'y' => 'Y' | 'z' => 'Z'
  | other => other

/-- The stateful character map inside capitalize: the flag records whether the
next non-whitespace character starts a word.  Whitespace met while the flag is
set becomes an asterisk (removed afterwards); a word-starting character is
uppercased and clears the flag; whitespace met with the flag clear sets it. -/
def capGo : Bool → Str → Str
  | _, [] => []
  | b, c :: cs =>
    if c.isWhitespace then
      if b then '*' :: capGo true cs
      else c :: capGo true cs
    else
      if b then charToUppercase c :: capGo false cs
      else c :: capGo false cs

/-- page.rs capitalize: trim, replace underscores by spaces, run the stateful
map, then delete every asterisk from the result. -/
def capitalize (input : Str) : Str :=
  (capGo true (replaceChar '_' ' ' (trimStr input))).filter (fun c => decide (c ≠ '*'))

namespace WikipediaPage

/-- WikipediaPage::title: URL-decode the pathinfo with underscores replaced by
spaces, then capitalize. -/
def title (p : WikipediaPage) : Str :=
  capitalize (urlDecode (replaceChar '_' ' ' p.pathinfo))

end WikipediaPage

/-- The title-casing described by the specification: URL-decode, replace
underscores with spaces, then uppercase exactly the first letter of each
whitespace-delimited word, leaving every other character untouched. -/
def tcGo : Bool → Str → Str
  | _, [] => []
  | b, c :: cs =>
    if c.isWhitespace then c :: tcGo true cs
    else
      if b then charToUppercase c :: tcGo false cs
      else c :: tcGo false cs

/-- The specified derivation of a title from a pathinfo. -/
def specTitle (pathinfo : Str) : Str :=
  tcGo true (replaceChar '_' ' ' (urlDecode pathinfo))

/-- No two adjacent whitespace characters. -/
def noAdjWs : Str → Bool
  | [] => true
  | [_] => true
  | a :: b :: rest => !(a.isWhitespace && b.isWhitespace) && noAdjWs (b :: rest)

/-- The first character, when present, is not whitespace. -/
def headNotWs : Str → Bool
  | [] => true
  | c :: _ => !c.isWhitespace

/-- A string on which capitalize degenerates to plain word-wise title casing:
no asterisk, no whitespace at either end, no whitespace run. -/
def titleSafe (s : Str) : Bool :=
  s.all (fun c => decide (c ≠ '*')) && noAdjWs s && headNotWs s && headNotWs s.reverse

/- ### Claim C10 material -/

/-- Claim C10 counterexample: on pathinfo a*b__c the derived title is Ab C
while the claimed formula gives A*b  C: capitalize strips the asterisk and
collapses the doubled separator, so not every other character is left
untouched. -/
theorem title_strips_asterisks_cex :
    WikipediaPage.title ⟨chs ("a*b__c"), none⟩ = chs ("Ab C") ∧
    specTitle (chs ("a*b__c")) = chs ("A*b  C") ∧
    WikipediaPage.title ⟨chs ("a*b__c"), none⟩ ≠ specTitle (chs ("a*b__c")) :=
  ⟨by rfl, by rfl, by decide⟩

theorem urlDecode_no_percent : ∀ l : Str, (∀ c ∈ l, c ≠ '%') → urlDecode l = l := by
  intro l
  induction l with
  | nil => intro _; rfl
  | cons c rest ih =>
    intro h
    have hc : c ≠ '%' := h c (by simp)
    rw [urlDecode.eq_def]
    dsimp only
    rw [if_neg hc, ih (fun x hx => h x (List.mem_cons_of_mem _ hx))]

theorem dropWhile_of_headNot {l : Str} (h : headNotWs l = true) :
    l.dropWhile Char.isWhitespace = l := by
  cases l with
  | nil => rfl
  | cons c cs =>
    have hc : c.isWhitespace = false := by
      simp [headNotWs] at h
      exact h
    rw [List.dropWhile_cons_of_neg (by simp [hc])]

theorem trim_noop {s : Str} (h1 : headNotWs s = true) (h2 : headNotWs s.reverse = true) :
    trimStr s = s := by
  unfold trimStr
  rw [dropWhile_of_headNot h1, dropWhile_of_headNot h2, List.reverse_reverse]

theorem replace_noop {l : Str} (h : ∀ c ∈ l, c ≠ '_') : replaceChar '_' ' ' l = l := by
  unfold replaceChar
  have hpt : ∀ c ∈ l, (fun c => if c = '_' then ' ' else c) c = id c := by
    intro c hc
    simp [h c hc]
  rw [List.map_congr_left hpt, List.map_id]

theorem no_underscore_replace {l : Str} : ∀ c ∈ replaceChar '_' ' ' l, c ≠ '_' := by
  intro c hc heq
  subst heq
  obtain ⟨x, hx, hxc⟩ := List.mem_map.mp hc
  by_cases hx2 : x = '_'
  · rw [if_pos hx2] at hxc
    exact absurd hxc (by decide)
  · rw [if_neg hx2] at hxc
    exact hx2 hxc

theorem no_percent_replace {l : Str} (h : ∀ c ∈ l, c ≠ '%') :
    ∀ c ∈ replaceChar '_' ' ' l, c ≠ '%' := by
  intro c hc heq
  subst heq
  obtain ⟨x, hx, hxc⟩ := List.mem_map.mp hc
  by_cases hx2 : x = '_'
  · rw [if_pos hx2] at hxc
    exact absurd hxc (by decide)
  · rw [if_neg hx2] at hxc
    exact h x hx hxc

theorem charToUppercase_ne_star {c : Char} (h : c ≠ '*') : charToUppercase c ≠ '*' := by
  unfold charToUppercase
  split <;> first | decide | exact h

theorem noAdjWs_tail {c : Char} {cs : Str} (h : noAdjWs (c :: cs) = true) :
    noAdjWs cs = true := by
  cases cs with
  | nil => rfl
  | cons d ds =>
    rw [noAdjWs, Bool.and_eq_true] at h
    exact h.2

theorem noAdjWs_head {c : Char} {cs : Str} (h : noAdjWs (c :: cs) = true)
    (hws : c.isWhitespace = true) : headNotWs cs = true := by
  cases cs with
  | nil => rfl
  | cons d ds =>
    rw [noAdjWs, Bool.and_eq_true] at h
    have := h.1
    rw [hws] at this
    simpa [headNotWs] using this

theorem capGo_eq_tcGo : ∀ (l : Str) (b : Bool),
    (∀ c ∈ l, c ≠ '*') → noAdjWs l = true → (b = true → headNotWs l = true) →
    capGo b l = tcGo b l ∧ ∀ c ∈ capGo b l, c ≠ '*' := by
  intro l
  induction l with
  | nil => intro b _ _ _; exact ⟨rfl, by simp [capGo]⟩
  | cons c cs ih =>
    intro b hstar hadj hhead
    have hstarc : c ≠ '*' := hstar c (by simp)
    have hstarcs : ∀ x ∈ cs, x ≠ '*' := fun x hx => hstar x (List.mem_cons_of_mem _ hx)
    have hadjcs : noAdjWs cs = true := noAdjWs_tail hadj
    cases hws : c.isWhitespace with
    | true =>
      cases b with
      | true =>
        exfalso
        have h2 := hhead rfl
        rw [headNotWs, hws] at h2
        exact absurd h2 (by decide)
      | false =>
        obtain ⟨ih1, ih2⟩ := ih true hstarcs hadjcs (fun _ => noAdjWs_head hadj hws)
        rw [capGo, tcGo]
        simp only [hws, if_true, if_false, Bool.false_eq_true]
        refine ⟨by rw [ih1], ?_⟩
        intro x hx
        rcases List.mem_cons.mp hx with hxe | hxm
        · exact hxe ▸ hstarc
        · exact ih2 x hxm
    | false =>
      obtain ⟨ih1, ih2⟩ := ih false hstarcs hadjcs (by intro h2; exact absurd h2 (by simp))
      cases b with
      | true =>
        rw [capGo, tcGo]
        simp only [hws, Bool.false_eq_true, if_false, if_true]
        refine ⟨by rw [ih1], ?_⟩
        intro x hx
        rcases List.mem_cons.mp hx with hxe | hxm
        · exact hxe ▸ charToUppercase_ne_star hstarc
        · exact ih2 x hxm
      | false =>
        rw [capGo, tcGo]
        simp only [hws, Bool.false_eq_true, if_false]
        refine ⟨by rw [ih1], ?_⟩
        intro x hx
        rcases List.mem_cons.mp hx with hxe | hxm
        · exact hxe ▸ hstarc
        · exact ih2 x hxm

theorem capitalize_safe {s : Str} (hstar : ∀ c ∈ s, c ≠ '*') (hadj : noAdjWs s = true)
    (hh : headNotWs s = true) (hl : headNotWs s.reverse = true)
    (hund : ∀ c ∈ s, c ≠ '_') :
    capitalize s = tcGo true s := by
  unfold capitalize
  rw [trim_noop hh hl, replace_noop hund]
  obtain ⟨h1, h2⟩ := capGo_eq_tcGo s true hstar hadj (fun _ => hh)
  rw [h1]
  apply List.filter_eq_self.mpr
  intro a ha
  exact decide_eq_true ((h1 ▸ h2) a ha)

/-- Claim C10 amended: for every pathinfo without percent escapes whose
underscore-replaced form contains no asterisk, no whitespace at either end and
no two adjacent whitespace characters, the derived title equals the claimed
formula (URL-decode, underscores to spaces, first letter of each
whitespace-delimited word uppercased, everything else untouched); in general
capitalize additionally trims the ends, collapses whitespace runs and deletes
asterisks, as the counterexample shows.  The concrete example holds:
list_of_norwegian_desserts titles to List Of Norwegian Desserts. -/
theorem title_spec_on_safe_pathinfos :
    (∀ p : Str, (∀ c ∈ p, c ≠ '%') →
      titleSafe (replaceChar '_' ' ' p) = true →
      WikipediaPage.title ⟨p, none⟩ = specTitle p) ∧
    WikipediaPage.title ⟨chs ("list_of_norwegian_desserts"), none⟩ =
      chs ("List Of Norwegian Desserts") := by
  constructor
  · intro p hp hsafe
    rw [titleSafe, Bool.and_eq_true, Bool.and_eq_true, Bool.and_eq_true] at hsafe
    obtain ⟨⟨⟨hstarb, hadj⟩, hh⟩, hl⟩ := hsafe
    have hstar : ∀ c ∈ replaceChar '_' ' ' p, c ≠ '*' := by
      intro c hc
      have := List.all_eq_true.mp hstarb c hc
      exact of_decide_eq_true this
    have hdec : urlDecode (replaceChar '_' ' ' p) = replaceChar '_' ' ' p :=
      urlDecode_no_percent _ (no_percent_replace hp)
    have hdecp : urlDecode p = p := urlDecode_no_percent p hp
    show capitalize (urlDecode (replaceChar '_' ' ' p)) = specTitle p
    rw [hdec]
    unfold specTitle
    rw [hdecp]
    exact capitalize_safe hstar hadj hh hl no_underscore_replace
  · rfl

/-- Claim C10 amended, witness: the safe-pathinfo theorem applied to the
concrete pathinfo krumkake_og_multekrem. -/
theorem title_spec_on_safe_pathinfos_witness :
    WikipediaPage.title ⟨chs ("krumkake_og_multekrem"), none⟩ =
      specTitle (chs ("krumkake_og_multekrem")) :=
  title_spec_on_safe_pathinfos.1 (chs ("krumkake_og_multekrem"))
    (by decide) (by decide)
